import Mathlib

/-!
# Verification of the kor-kanban live view-model layer

Shallow embedding of `src/apps/kor-kanban/src/hooks/useProjectTasks.ts`
(and the shared shape of `useProjects.ts`).

Modelling conventions:
* `created_at` is epoch milliseconds (`Option Int`); the source stores an ISO
  string and compares `new Date(s).getTime()`, which is order-isomorphic to
  epoch milliseconds, and `none` models a record missing the field (whose
  `getTime()` is NaN).
* A JS string-keyed object is an insertion-ordered association list: assigning
  to an existing key updates the value in place, assigning a new key appends.
  `Object.values` lists canonical array-index keys first in ascending numeric
  order, then the remaining keys in insertion order.
* `Array.prototype.sort` is modelled as a stable insertion sort over the
  comparator-induced relation; a NaN comparator result counts as `+0`, per the
  ECMAScript `CompareArrayElements` rule.
-/

namespace Kanban

/-- A task record as this layer sees it: identity, status (a plain string at
runtime), creation timestamp, and an opaque mutable field. -/
structure Task where
  id : String
  status : String
  created_at : Option Int
  title : String
deriving DecidableEq

/-- JS object assignment `m[k] = v`: update in place when the key exists,
append otherwise. -/
def recInsert {α : Type} (m : List (String × α)) (k : String) (v : α) :
    List (String × α) :=
  if m.any (fun p => p.1 = k) then
    m.map (fun p => if p.1 = k then (k, v) else p)
  else m ++ [(k, v)]

/-- JS property read `m[k]`. -/
def recLookup {α : Type} (m : List (String × α)) (k : String) : Option α :=
  (m.find? (fun p => p.1 = k)).map Prod.snd

/-- Decimal value of a digit-string key. -/
def keyNum (s : String) : Nat :=
  s.data.foldl (fun n c => n * 10 + (c.toNat - 48)) 0

/-- Whether a string is a canonical array index (JS own-property ordering puts
such keys first): a non-empty digit string with no leading zero (except "0"
itself) whose value is below 2^32 - 1. -/
def isArrayIndex (s : String) : Bool :=
  match s.data with
  | [] => false
  | c :: cs =>
    (c :: cs).all Char.isDigit && (decide (c ≠ '0') || cs.isEmpty)
      && decide (keyNum s < 4294967295)

/-- Model of `Object.values`: array-index keys in ascending numeric order, then the
remaining keys in insertion order. -/
def jsValues {α : Type} (m : List (String × α)) : List α :=
  (List.insertionSort (fun p q : String × α => keyNum p.1 ≤ keyNum q.1)
      (m.filter (fun p => isArrayIndex p.1))).map Prod.snd
    ++ (m.filter (fun p => !isArrayIndex p.1)).map Prod.snd

/-- The comparator
`(a, b) => new Date(b.created_at).getTime() - new Date(a.created_at).getTime()`:
when either timestamp is missing the subtraction is NaN, which the sort treats
as `+0`. -/
def jsCompare (a b : Task) : Int :=
  match b.created_at, a.created_at with
  | some tb, some ta => tb - ta
  | _, _ => 0

/-- Relation `taskBefore a b`: holds when the comparator allows `a` to precede `b`. -/
def taskBefore (a b : Task) : Prop := jsCompare a b ≤ 0

instance : DecidableRel taskBefore := fun a b => by
  unfold taskBefore; exact inferInstance

/-- The bucket keys of the `byStatus` literal, exactly as written in the
source. -/
def statusKeys : List String := ["todo", "inprogress", "inreview", "done", "cancelled"]

/-- Modelled from the spec: the `TaskStatus` enum lives in `shared/types`,
which is not under `src/`; the spec (§3) lists its values as `todo`,
`in_progress`, `in_review`, `done`, `cancelled`. -/
def specTaskStatusValues : List String :=
  ["todo", "in_progress", "in_review", "done", "cancelled"]

/-- Model of `byStatus[task.status]?.push(task)`: append to the bucket when the key
exists, otherwise do nothing (optional chaining). -/
def pushStatus (b : List (String × List Task)) (t : Task) :
    List (String × List Task) :=
  b.map (fun p => if p.1 = t.status then (p.1, p.2 ++ [t]) else p)

/-- The `byStatus` object literal: five empty buckets in source order. -/
def initialBuckets : List (String × List Task) := statusKeys.map (fun s => (s, []))

/-- The derived part of the view model (the `useMemo` body). -/
structure DerivedModel where
  tasks : List Task
  tasksById : List (String × Task)
  tasksByStatus : List (String × List Task)
deriving DecidableEq

/-- The derivation `useMemo`: one pass filling `merged` and `byStatus`, then a
sort of `Object.values(merged)` and an in-place sort of every bucket. -/
def deriveTasks (data : Option (List Task)) : DerivedModel :=
  let taskList := data.getD []
  let st := taskList.foldl
    (fun (acc : List (String × Task) × List (String × List Task)) task =>
      (recInsert acc.1 task.id task, pushStatus acc.2 task))
    ([], initialBuckets)
  { tasks := List.insertionSort taskBefore (jsValues st.1),
    tasksById := st.1,
    tasksByStatus := st.2.map (fun p => (p.1, List.insertionSort taskBefore p.2)) }

/-- The runtime inputs the hook reads: the query's `data`/`isLoading`/`error`
and the push channel's open state (which the source never reads). -/
structure HookState where
  data : Option (List Task)
  isLoading : Bool
  error : Option String
  wsOpen : Bool
deriving DecidableEq

/-- The public `UseProjectTasksResult` contract. -/
structure UseProjectTasksResult where
  tasks : List Task
  tasksById : List (String × Task)
  tasksByStatus : List (String × List Task)
  isLoading : Bool
  isConnected : Bool
  error : Option String
deriving DecidableEq

/-- The hook's returned object: the derived model plus
`isConnected: !error` and `error: error ? error.message : null`. -/
def useProjectTasks (st : HookState) : UseProjectTasksResult :=
  let d := deriveTasks st.data
  { tasks := d.tasks
    tasksById := d.tasksById
    tasksByStatus := d.tasksByStatus
    isLoading := st.isLoading
    isConnected := st.error.isNone
    error := st.error }

/-- The `data` object of a change notification. -/
structure NotifData where
  project_id : String
deriving DecidableEq

/-- A parsed WebSocket message; `type = none` models a JSON object without a
`type` key. -/
structure WsMessage where
  type : Option String
  data : Option NotifData
deriving DecidableEq

/-- The `useWebSocket` `filter` option: keep only task-change message types. -/
def wsFilter (m : WsMessage) : Bool :=
  match m.type with
  | some t => decide (t = "task_created" ∨ t = "task_updated" ∨ t = "task_deleted")
  | none => false

/-- How many `invalidateQueries` (refresh) calls the message-handling `useMemo`
issues for the last received message. -/
def refreshCount (m : Option WsMessage) (projectId : String) : Nat :=
  match m with
  | none => 0
  | some msg =>
    if msg.type.isSome then
      match msg.data with
      | some d => if d.project_id = projectId then 1 else 0
      | none => 0
    else 0

/-- Modelled from the spec: the fetch race handling lives inside
`@tanstack/react-query`, not under `src/`; §4.1 requires each in-flight request
to carry a monotonically increasing sequence number and responses with a lower
sequence number than the last applied one to be discarded. -/
structure FetchState where
  lastApplied : Nat
  snap : Option (List Task)
deriving DecidableEq

/-- Apply a completed response: responses not newer than the last applied one
are discarded. -/
def applyResponse (st : FetchState) (seq : Nat) (result : List Task) : FetchState :=
  if st.lastApplied < seq then { lastApplied := seq, snap := some result } else st

/-- Outcome of one settled fetch. -/
inductive FetchOutcome
  | success : List Task → FetchOutcome
  | failure : String → FetchOutcome
deriving DecidableEq

/-- Whether the outcome is a failure. -/
def FetchOutcome.isFailure : FetchOutcome → Bool
  | .success _ => false
  | .failure _ => true

/-- Modelled from the spec: the query cache (`@tanstack/react-query`, not under
`src/`) keeps `data`/`error` per §4.1/§4.4 — success replaces the snapshot and
clears the error, failure keeps the previous snapshot and sets the error. -/
structure QueryState where
  data : Option (List Task)
  error : Option String
deriving DecidableEq

/-- One settled fetch updating the query state. -/
def applyOutcome (st : QueryState) : FetchOutcome → QueryState
  | .success d => { data := some d, error := none }
  | .failure e => { data := st.data, error := some e }

/-- A sequence of settled fetches. -/
def runFetches (st : QueryState) (l : List FetchOutcome) : QueryState :=
  l.foldl applyOutcome st

/-- Newest-first order on tasks with present timestamps: `a` may precede `b`
when `b`'s creation timestamp is at most `a`'s. -/
def newestFirstB (a b : Task) : Bool :=
  match a.created_at, b.created_at with
  | some ta, some tb => decide (tb ≤ ta)
  | _, _ => false

/-- Propositional form of `newestFirstB`. -/
def newestFirst (a b : Task) : Prop := newestFirstB a b = true

instance : DecidableRel newestFirst := fun a b => by
  unfold newestFirst; exact inferInstance

/-- Lexicographic order on identities, over the underlying characters (the
usual string order). -/
def idLeB : List Char → List Char → Bool
  | [], _ => true
  | _ :: _, [] => false
  | c :: cs, d :: ds => if c = d then idLeB cs ds else decide (c.toNat < d.toNat)

/-- The order the spec prescribes for the derived lists: creation timestamp
descending with ties broken by identity ascending. -/
def specNewestFirstB (a b : Task) : Bool :=
  match a.created_at, b.created_at with
  | some ta, some tb => decide (tb < ta) || (decide (tb = ta) && idLeB a.id.data b.id.data)
  | _, _ => false

/-- Propositional form of `specNewestFirstB`. -/
def specNewestFirst (a b : Task) : Prop := specNewestFirstB a b = true

instance : DecidableRel specNewestFirst := fun a b => by
  unfold specNewestFirst; exact inferInstance

/-- Model of `merged[task.id] = task`. -/
def mergeInsert (m : List (String × Task)) (t : Task) : List (String × Task) :=
  recInsert m t.id t

/-- The `merged` record after the forEach pass. -/
def buildMerged (l : List Task) : List (String × Task) :=
  l.foldl mergeInsert []

/-- The `byStatus` buckets after the forEach pass. -/
def buildBuckets (l : List Task) : List (String × List Task) :=
  l.foldl pushStatus initialBuckets

/-- Sample tasks for concrete runs of the embedding. -/
def tAlpha : Task := ⟨"a", "todo", some 100, "alpha"⟩

/-- Same creation timestamp as `tAlpha`, larger identity. -/
def tBeta : Task := ⟨"b", "todo", some 100, "beta"⟩

/-- A well-formed task. -/
def tGood : Task := ⟨"g", "todo", some 200, "good"⟩

/-- A malformed task: its creation timestamp is missing. -/
def tBad : Task := ⟨"m", "todo", none, "malformed"⟩

/-- First occurrence of a duplicated identity. -/
def tDup1 : Task := ⟨"x", "todo", some 5, "first"⟩

/-- Second occurrence of the same identity. -/
def tDup2 : Task := ⟨"x", "todo", some 6, "second"⟩

/-- A task whose status is not one of the bucket keys. -/
def tWeird : Task := ⟨"w", "blocked", some 50, "weird"⟩

lemma fold_pair_eq (l : List Task) (m : List (String × Task))
    (b : List (String × List Task)) :
    l.foldl
      (fun (acc : List (String × Task) × List (String × List Task)) task =>
        (recInsert acc.1 task.id task, pushStatus acc.2 task)) (m, b)
      = (l.foldl mergeInsert m, l.foldl pushStatus b) := by
  induction l generalizing m b with
  | nil => rfl
  | cons t l ih => simpa [mergeInsert] using ih (mergeInsert m t) (pushStatus b t)

lemma deriveTasks_some (l : List Task) :
    deriveTasks (some l) =
      { tasks := List.insertionSort taskBefore (jsValues (buildMerged l)),
        tasksById := buildMerged l,
        tasksByStatus :=
          (buildBuckets l).map (fun p => (p.1, List.insertionSort taskBefore p.2)) } := by
  unfold deriveTasks buildMerged buildBuckets
  simp only [Option.getD_some, fold_pair_eq]

lemma taskBefore_total (a b : Task) : taskBefore a b ∨ taskBefore b a := by
  unfold taskBefore jsCompare
  rcases a.created_at with _ | ta <;> rcases b.created_at with _ | tb <;> simp
  all_goals omega

lemma taskBefore_of_le {a b : Task} {ta tb : Int} (ha : a.created_at = some ta)
    (hb : b.created_at = some tb) (h : tb ≤ ta) : taskBefore a b := by
  unfold taskBefore jsCompare
  rw [ha, hb]
  simpa using h

lemma le_of_taskBefore {a b : Task} {ta tb : Int} (ha : a.created_at = some ta)
    (hb : b.created_at = some tb) (h : taskBefore a b) : tb ≤ ta := by
  unfold taskBefore jsCompare at h
  rw [ha, hb] at h
  simpa using h

lemma taskBefore_trans_of_isSome {a b c : Task} (ha : a.created_at.isSome)
    (hb : b.created_at.isSome) (hc : c.created_at.isSome)
    (h1 : taskBefore a b) (h2 : taskBefore b c) : taskBefore a c := by
  rcases Option.isSome_iff_exists.mp ha with ⟨ta, hta⟩
  rcases Option.isSome_iff_exists.mp hb with ⟨tb, htb⟩
  rcases Option.isSome_iff_exists.mp hc with ⟨tc, htc⟩
  exact taskBefore_of_le hta htc
    (le_trans (le_of_taskBefore htb htc h2) (le_of_taskBefore hta htb h1))

lemma sorted_orderedInsert_taskBefore (a : Task) (l : List Task)
    (ha : a.created_at.isSome) (hl : ∀ t ∈ l, t.created_at.isSome)
    (hs : List.Sorted taskBefore l) :
    List.Sorted taskBefore (List.orderedInsert taskBefore a l) := by
  induction l with
  | nil => simp [List.orderedInsert]
  | cons b l ih =>
    obtain ⟨hbl, hsl⟩ := List.sorted_cons.mp hs
    have hbsome : b.created_at.isSome := hl b (List.mem_cons_self b l)
    simp only [List.orderedInsert]
    by_cases hab : taskBefore a b
    · rw [if_pos hab, List.sorted_cons]
      refine ⟨?_, hs⟩
      intro c hc
      rcases List.mem_cons.mp hc with rfl | hcl
      · exact hab
      · exact taskBefore_trans_of_isSome ha hbsome
          (hl c (List.mem_cons_of_mem b hcl)) hab (hbl c hcl)
    · rw [if_neg hab, List.sorted_cons]
      refine ⟨?_, ih (fun t ht => hl t (List.mem_cons_of_mem b ht)) hsl⟩
      intro c hc
      rcases (List.mem_orderedInsert taskBefore).mp hc with hca | hcl
      · rw [hca]
        rcases taskBefore_total a b with h | h
        · exact absurd h hab
        · exact h
      · exact hbl c hcl

lemma sorted_insertionSort_taskBefore (l : List Task)
    (hl : ∀ t ∈ l, t.created_at.isSome) :
    List.Sorted taskBefore (List.insertionSort taskBefore l) := by
  induction l with
  | nil => simp
  | cons a l ih =>
    simp only [List.insertionSort]
    exact sorted_orderedInsert_taskBefore a _ (hl a (List.mem_cons_self a l))
      (fun t ht => hl t (List.mem_cons_of_mem a ((List.mem_insertionSort taskBefore).mp ht)))
      (ih fun t ht => hl t (List.mem_cons_of_mem a ht))

lemma sorted_newestFirst {l : List Task} (hl : ∀ t ∈ l, t.created_at.isSome)
    (hs : List.Sorted taskBefore l) : List.Sorted newestFirst l := by
  refine hs.imp_of_mem ?_
  intro a b hma hmb hab
  rcases Option.isSome_iff_exists.mp (hl a hma) with ⟨ta, hta⟩
  rcases Option.isSome_iff_exists.mp (hl b hmb) with ⟨tb, htb⟩
  have hle := le_of_taskBefore hta htb hab
  simp [newestFirst, newestFirstB, hta, htb, hle]

lemma bool_eq_false {b : Bool} (h : ¬ b = true) : b = false := by
  cases b
  · rfl
  · exact absurd rfl h

lemma recInsert_map_fst_pos {α : Type} (m : List (String × α)) (k : String) (v : α)
    (h : m.any (fun p => p.1 = k) = true) :
    (recInsert m k v).map Prod.fst = m.map Prod.fst := by
  unfold recInsert
  rw [if_pos h, List.map_map]
  refine List.map_congr_left ?_
  intro p _
  by_cases hpk : p.1 = k
  · simp [hpk]
  · simp [hpk]

lemma recInsert_map_fst_neg {α : Type} (m : List (String × α)) (k : String) (v : α)
    (h : m.any (fun p => p.1 = k) = false) :
    (recInsert m k v).map Prod.fst = m.map Prod.fst ++ [k] := by
  unfold recInsert
  rw [if_neg (by simp [h]), List.map_append]
  rfl

lemma mem_keys_mergeInsert (acc : List (String × Task)) (t : Task) (k : String) :
    k ∈ (mergeInsert acc t).map Prod.fst ↔ k ∈ acc.map Prod.fst ∨ k = t.id := by
  unfold mergeInsert
  by_cases hc : acc.any (fun p => p.1 = t.id) = true
  · rw [recInsert_map_fst_pos _ _ _ hc]
    constructor
    · exact Or.inl
    · rintro (h | rfl)
      · exact h
      · rcases List.any_eq_true.mp hc with ⟨p, hp, hpk⟩
        exact List.mem_map.mpr ⟨p, hp, by simpa using hpk⟩
  · rw [recInsert_map_fst_neg _ _ _ (bool_eq_false hc)]
    simp

lemma mem_keys_foldl_mergeInsert (l : List Task) (acc : List (String × Task)) (k : String) :
    k ∈ (l.foldl mergeInsert acc).map Prod.fst
      ↔ k ∈ acc.map Prod.fst ∨ k ∈ l.map Task.id := by
  induction l generalizing acc with
  | nil => simp
  | cons t l ih =>
    rw [List.foldl_cons, ih, mem_keys_mergeInsert]
    simp [or_assoc, or_comm, or_left_comm]

lemma keys_nodup_foldl_mergeInsert (l : List Task) (acc : List (String × Task))
    (h : (acc.map Prod.fst).Nodup) :
    ((l.foldl mergeInsert acc).map Prod.fst).Nodup := by
  induction l generalizing acc with
  | nil => simpa using h
  | cons t l ih =>
    rw [List.foldl_cons]
    refine ih _ ?_
    unfold mergeInsert
    by_cases hc : acc.any (fun p => p.1 = t.id) = true
    · rw [recInsert_map_fst_pos _ _ _ hc]; exact h
    · rw [recInsert_map_fst_neg _ _ _ (bool_eq_false hc)]
      have hnot : t.id ∉ acc.map Prod.fst := by
        intro hmem
        rcases List.mem_map.mp hmem with ⟨p, hp, hpk⟩
        have hany : acc.any (fun r => r.1 = t.id) = true :=
          List.any_eq_true.mpr ⟨p, hp, by simp [hpk]⟩
        exact absurd hany hc
      simp [List.nodup_append, h, hnot]

lemma mem_mergeInsert {acc : List (String × Task)} {t : Task} {e : String × Task}
    (he : e ∈ mergeInsert acc t) : e ∈ acc ∨ e = (t.id, t) := by
  unfold mergeInsert recInsert at he
  by_cases hc : acc.any (fun p => p.1 = t.id) = true
  · rw [if_pos hc] at he
    rcases List.mem_map.mp he with ⟨p, hp, hpe⟩
    by_cases hpk : p.1 = t.id
    · right; rw [← hpe]; simp [hpk]
    · left; rw [← hpe]; simpa [hpk] using hp
  · rw [if_neg hc] at he
    rcases List.mem_append.mp he with h | h
    · exact Or.inl h
    · right; simpa using h

lemma mem_foldl_mergeInsert {l : List Task} {acc : List (String × Task)}
    {e : String × Task} (he : e ∈ l.foldl mergeInsert acc) :
    e ∈ acc ∨ e.2 ∈ l := by
  induction l generalizing acc with
  | nil => exact Or.inl (by simpa using he)
  | cons t l ih =>
    rw [List.foldl_cons] at he
    rcases ih he with h | h
    · rcases mem_mergeInsert h with h2 | h2
      · exact Or.inl h2
      · right; rw [h2]; exact List.mem_cons_self t l
    · exact Or.inr (List.mem_cons_of_mem t h)

lemma id_eq_key_foldl_mergeInsert (l : List Task) (acc : List (String × Task))
    (hacc : ∀ e ∈ acc, Task.id e.2 = e.1) :
    ∀ e ∈ l.foldl mergeInsert acc, Task.id e.2 = e.1 := by
  induction l generalizing acc with
  | nil => simpa using hacc
  | cons t l ih =>
    rw [List.foldl_cons]
    refine ih _ ?_
    intro e he
    rcases mem_mergeInsert he with h | h
    · exact hacc e h
    · rw [h]

lemma recLookup_recInsert {α : Type} (m : List (String × α)) (k : String) (v : α)
    (q : String) :
    recLookup (recInsert m k v) q = if q = k then some v else recLookup m q := by
  unfold recLookup recInsert
  by_cases hc : m.any (fun p => p.1 = k) = true
  · rw [if_pos hc, List.find?_map]
    have hpred : ((fun p : String × α => decide (p.1 = q)) ∘
        (fun p : String × α => if p.1 = k then (k, v) else p))
        = (fun p : String × α => decide (p.1 = q)) := by
      funext p
      by_cases hpk : p.1 = k
      · simp [hpk]
      · simp [hpk]
    rw [hpred]
    by_cases hqk : q = k
    · subst hqk
      rcases List.any_eq_true.mp hc with ⟨p, hp, hpk⟩
      have hsome : (m.find? (fun p => p.1 = q)).isSome := by
        rw [List.find?_isSome]
        exact ⟨p, hp, hpk⟩
      rcases Option.isSome_iff_exists.mp hsome with ⟨p0, hp0⟩
      have hp0k : p0.1 = q := by simpa using List.find?_some hp0
      simp [hp0, hp0k]
    · rw [if_neg hqk]
      cases hf : m.find? (fun p => p.1 = q) with
      | none => simp [hf]
      | some p0 =>
        have hp0q : p0.1 = q := by simpa using List.find?_some hf
        have hp0k : ¬ p0.1 = k := by rw [hp0q]; exact hqk
        simp [hf, hp0k]
  · rw [if_neg hc, List.find?_append]
    by_cases hqk : q = k
    · subst hqk
      have hnone : m.find? (fun p => p.1 = q) = none := by
        rw [List.find?_eq_none]
        intro p hp
        simp only [decide_eq_true_eq]
        intro hpq
        have hany : m.any (fun r => r.1 = q) = true :=
          List.any_eq_true.mpr ⟨p, hp, by simp [hpq]⟩
        exact absurd hany hc
      simp [hnone]
    · have hone : List.find? (fun p : String × α => p.1 = q) [(k, v)] = none := by
        simp [List.find?, Ne.symm hqk]
      simp [hone, hqk]

lemma recLookup_foldl_mergeInsert (l : List Task) (acc : List (String × Task))
    (k : String) :
    recLookup (l.foldl mergeInsert acc) k
      = ((l.filter (fun t => t.id = k)).getLast?).or (recLookup acc k) := by
  induction l generalizing acc with
  | nil => simp
  | cons t l ih =>
    rw [List.foldl_cons, ih, List.filter_cons]
    by_cases ht : t.id = k
    · rw [if_pos (by simpa using ht)]
      unfold mergeInsert
      rw [recLookup_recInsert, if_pos ht.symm]
      cases hf : l.filter (fun u => u.id = k) with
      | nil => simp
      | cons x xs =>
        rw [List.getLast?_cons_cons]
        rcases Option.isSome_iff_exists.mp
          (List.getLast?_isSome.mpr (by simp : (x :: xs) ≠ [])) with ⟨y, hy⟩
        simp [hy]
    · rw [if_neg (by simpa using ht)]
      unfold mergeInsert
      rw [recLookup_recInsert]
      rw [if_neg (fun h => ht h.symm)]

lemma foldl_mergeInsert_of_nodup (l : List Task) (acc : List (String × Task))
    (hdisj : ∀ t ∈ l, acc.any (fun p => p.1 = t.id) = false)
    (hl : (l.map Task.id).Nodup) :
    l.foldl mergeInsert acc = acc ++ l.map (fun t => (t.id, t)) := by
  induction l generalizing acc with
  | nil => simp
  | cons t l ih =>
    rw [List.foldl_cons]
    have hstep : mergeInsert acc t = acc ++ [(t.id, t)] := by
      unfold mergeInsert recInsert
      rw [if_neg (by simp [hdisj t (List.mem_cons_self t l)])]
    rw [List.map_cons, List.nodup_cons] at hl
    obtain ⟨hhd, htl⟩ := hl
    rw [hstep, ih]
    · simp
    · intro u hu
      rw [List.any_append]
      have h1 : acc.any (fun p => p.1 = u.id) = false :=
        hdisj u (List.mem_cons_of_mem t hu)
      have h2 : ([(t.id, t)].any (fun p => p.1 = u.id)) = false := by
        simp only [List.any_cons, List.any_nil, Bool.or_false]
        have : t.id ≠ u.id := by
          intro hcontra
          exact hhd (hcontra ▸ List.mem_map.mpr ⟨u, hu, rfl⟩)
        simpa using this
      rw [h1, h2]
      rfl
    · exact htl

lemma buildMerged_of_nodup (l : List Task) (hl : (l.map Task.id).Nodup) :
    buildMerged l = l.map (fun t => (t.id, t)) := by
  unfold buildMerged
  rw [foldl_mergeInsert_of_nodup l [] (by simp) hl]
  rfl

lemma jsValues_perm {α : Type} (m : List (String × α)) :
    (jsValues m).Perm (m.map Prod.snd) := by
  unfold jsValues
  refine (List.Perm.append ((List.perm_insertionSort _ _).map Prod.snd)
    (List.Perm.refl _)).trans ?_
  rw [← List.map_append]
  exact (List.filter_append_perm _ m).map Prod.snd

lemma deriveTasks_tasks_perm (l : List Task) (hl : (l.map Task.id).Nodup) :
    ((deriveTasks (some l)).tasks).Perm l := by
  rw [deriveTasks_some]
  refine (List.perm_insertionSort _ _).trans ((jsValues_perm _).trans ?_)
  rw [buildMerged_of_nodup l hl, List.map_map]
  have : (Prod.snd ∘ fun t : Task => (t.id, t)) = id := rfl
  rw [this, List.map_id]

lemma foldl_pushStatus_eq (l : List Task) (b : List (String × List Task)) :
    l.foldl pushStatus b
      = b.map (fun p => (p.1, p.2 ++ l.filter (fun t => t.status = p.1))) := by
  induction l generalizing b with
  | nil => simp
  | cons t l ih =>
    rw [List.foldl_cons, ih]
    unfold pushStatus
    rw [List.map_map]
    refine List.map_congr_left ?_
    intro p _
    by_cases hst : p.1 = t.status
    · simp only [Function.comp_apply, if_pos hst, List.filter_cons]
      rw [if_pos (by simpa using hst.symm)]
      simp
    · simp only [Function.comp_apply, if_neg hst, List.filter_cons]
      rw [if_neg (by simpa using fun h => hst h.symm)]

lemma buildBuckets_eq (l : List Task) :
    buildBuckets l = statusKeys.map (fun s => (s, l.filter (fun t => t.status = s))) := by
  unfold buildBuckets initialBuckets
  rw [foldl_pushStatus_eq, List.map_map]
  refine List.map_congr_left ?_
  intro s _
  simp

lemma sum_map_add (keys : List String) (f g : String → Nat) :
    (keys.map (fun s => f s + g s)).sum = (keys.map f).sum + (keys.map g).sum := by
  induction keys with
  | nil => rfl
  | cons k keys ih => simp only [List.map_cons, List.sum_cons, ih]; omega

lemma sum_map_indicator (keys : List String) (x : String) (h : keys.Nodup) :
    (keys.map (fun s => if x = s then 1 else 0)).sum = if x ∈ keys then 1 else 0 := by
  induction keys with
  | nil => simp
  | cons k keys ih =>
    rcases List.nodup_cons.mp h with ⟨hk, hnd⟩
    rw [List.map_cons, List.sum_cons, ih hnd]
    by_cases hx : x = k
    · subst hx
      have hxmem : x ∉ keys := hk
      simp [hxmem]
    · simp [hx, List.mem_cons]

lemma countP_eq_one_of_nodup {keys : List String} {i : String}
    (hnd : keys.Nodup) (hi : i ∈ keys) : keys.countP (fun k => k = i) = 1 := by
  induction keys with
  | nil => simp at hi
  | cons k keys ih =>
    rcases List.nodup_cons.mp hnd with ⟨hk, hnd'⟩
    rw [List.countP_cons]
    rcases List.mem_cons.mp hi with rfl | hi'
    · have hz : keys.countP (fun x => x = i) = 0 := by
        rw [List.countP_eq_zero]
        intro a ha
        simp only [decide_eq_true_eq]
        rintro rfl
        exact hk ha
      simp [hz]
    · have hki : ¬ (k = i) := by rintro rfl; exact hk hi'
      simp [hki, ih hnd' hi']

lemma deriveTasks_byStatus (l : List Task) :
    (deriveTasks (some l)).tasksByStatus
      = statusKeys.map
          (fun s => (s, List.insertionSort taskBefore (l.filter (fun t => t.status = s)))) := by
  rw [deriveTasks_some]
  show (buildBuckets l).map (fun p => (p.1, List.insertionSort taskBefore p.2)) = _
  rw [buildBuckets_eq, List.map_map]
  rfl

lemma deriveTasks_tasks_eq (l : List Task) :
    (deriveTasks (some l)).tasks
      = List.insertionSort taskBefore (jsValues (buildMerged l)) := by
  rw [deriveTasks_some]

lemma deriveTasks_tasksById_eq (l : List Task) :
    (deriveTasks (some l)).tasksById = buildMerged l := by
  rw [deriveTasks_some]

lemma useProjectTasks_tasks (st : HookState) :
    (useProjectTasks st).tasks = (deriveTasks st.data).tasks := rfl

lemma useProjectTasks_tasksById (st : HookState) :
    (useProjectTasks st).tasksById = (deriveTasks st.data).tasksById := rfl

lemma useProjectTasks_tasksByStatus (st : HookState) :
    (useProjectTasks st).tasksByStatus = (deriveTasks st.data).tasksByStatus := rfl

lemma mem_of_mem_jsValues_buildMerged {l : List Task} {t : Task}
    (ht : t ∈ jsValues (buildMerged l)) : t ∈ l := by
  have hmem : t ∈ (buildMerged l).map Prod.snd := (jsValues_perm _).mem_iff.mp ht
  rcases List.mem_map.mp hmem with ⟨e, he, rfl⟩
  unfold buildMerged at he
  rcases mem_foldl_mergeInsert he with h | h
  · simp at h
  · exact h

lemma sorted_newestFirst_insertionSort (l : List Task)
    (h : ∀ t ∈ l, t.created_at.isSome) :
    List.Sorted newestFirst (List.insertionSort taskBefore l) :=
  sorted_newestFirst
    (fun t ht => h t ((List.mem_insertionSort taskBefore).mp ht))
    (sorted_insertionSort_taskBefore l h)

lemma runFetches_failures (st : QueryState) (l : List FetchOutcome)
    (hl : ∀ o ∈ l, o.isFailure = true) (he : st.error.isSome = true) :
    (runFetches st l).data = st.data ∧ (runFetches st l).error.isSome = true := by
  induction l generalizing st with
  | nil => exact ⟨rfl, he⟩
  | cons o l ih =>
    cases o with
    | success d => exact absurd (hl _ (List.mem_cons_self _ _)) (by simp [FetchOutcome.isFailure])
    | failure e =>
      unfold runFetches at *
      rw [List.foldl_cons]
      exact ih (applyOutcome st (.failure e))
        (fun o ho => hl o (List.mem_cons_of_mem _ ho)) rfl

lemma recLookup_of_mem_nodup {m : List (String × Task)}
    (hnd : (m.map Prod.fst).Nodup) {e : String × Task} (he : e ∈ m) :
    recLookup m e.1 = some e.2 := by
  induction m with
  | nil => simp at he
  | cons p m ih =>
    rw [List.map_cons, List.nodup_cons] at hnd
    obtain ⟨hp, hnd'⟩ := hnd
    rcases List.mem_cons.mp he with rfl | he'
    · unfold recLookup
      rw [List.find?_cons_of_pos _ (by simp)]
      rfl
    · unfold recLookup
      rw [List.find?_cons_of_neg]
      · exact ih hnd' he'
      · simp only [decide_eq_true_eq]
        intro hcontra
        exact hp (hcontra ▸ List.mem_map.mpr ⟨e, he', rfl⟩)

lemma filter_length_sum (l : List Task) :
    (statusKeys.map (fun s => (l.filter (fun t => t.status = s)).length)).sum
      = (l.filter (fun t => t.status ∈ statusKeys)).length := by
  induction l with
  | nil => simp
  | cons t l ih =>
    have hstep : ∀ s ∈ statusKeys,
        ((t :: l).filter (fun u => u.status = s)).length
          = (if t.status = s then 1 else 0) + (l.filter (fun u => u.status = s)).length := by
      intro s _
      rw [List.filter_cons]
      by_cases h : t.status = s
      · rw [if_pos (by simpa using h), if_pos h, List.length_cons]; omega
      · rw [if_neg (by simpa using h), if_neg h]; omega
    rw [List.map_congr_left hstep, sum_map_add,
      sum_map_indicator _ _ (by decide), ih, List.filter_cons]
    by_cases h : t.status ∈ statusKeys
    · rw [if_pos h, if_pos (by simpa using h), List.length_cons]; omega
    · rw [if_neg h, if_neg (by simpa using h)]; omega

/-- C1: if fetch A is initiated before fetch B (so A carries the smaller
sequence number) and B completes first, then after both responses settle the
snapshot is B's result: A's late response has a lower sequence number than the
last applied one and is discarded. -/
theorem fetch_race_newest_wins (st : FetchState) (seqA seqB : Nat)
    (rA rB : List Task) (hAB : seqA < seqB) (hB : st.lastApplied < seqB) :
    applyResponse (applyResponse st seqB rB) seqA rA
      = { lastApplied := seqB, snap := some rB } := by
  have h2 : ¬ (seqB < seqA) := by omega
  simp [applyResponse, hB, h2]

/-- Witness for `fetch_race_newest_wins` at concrete sequence numbers 1 and 2. -/
theorem fetch_race_newest_wins_witness :
    1 < 2 ∧ FetchState.lastApplied ⟨0, none⟩ < 2 ∧
      applyResponse (applyResponse ⟨0, none⟩ 2 [tGood]) 1 [tBad]
        = { lastApplied := 2, snap := some [tGood] } :=
  ⟨by decide, by decide,
    fetch_race_newest_wins ⟨0, none⟩ 1 2 [tBad] [tGood] (by decide) (by decide)⟩

/-- C2 counterexample: `tBeta` (id "b") and `tAlpha` (id "a") share creation
timestamp 100; the derived flat list keeps them in fetched order ["b", "a"],
so on ties the order is not identity ascending and the list is not sorted by
the spec's tie-breaking relation. -/
theorem derive_tie_not_identity_ascending :
    tAlpha.created_at = tBeta.created_at ∧
    ((useProjectTasks ⟨some [tBeta, tAlpha], false, none, true⟩).tasks).map Task.id
      = ["b", "a"] ∧
    ¬ List.Sorted specNewestFirst
      ((useProjectTasks ⟨some [tBeta, tAlpha], false, none, true⟩).tasks) := by
  refine ⟨rfl, by decide, by decide⟩

/-- C2 (amended): for every fetched list whose tasks all carry a creation
timestamp, the flat list and every status group are sorted by creation
timestamp descending; on equal timestamps the code applies no identity
tie-break (the stable sort keeps the fetched order). -/
theorem derive_sorted_newest_first (l : List Task) (isL : Bool)
    (err : Option String) (w : Bool)
    (h : ∀ t ∈ l, t.created_at.isSome) :
    List.Sorted newestFirst ((useProjectTasks ⟨some l, isL, err, w⟩).tasks) ∧
    ∀ p ∈ (useProjectTasks ⟨some l, isL, err, w⟩).tasksByStatus,
      List.Sorted newestFirst p.2 := by
  constructor
  · rw [useProjectTasks_tasks]
    show List.Sorted newestFirst (deriveTasks (some l)).tasks
    rw [deriveTasks_tasks_eq]
    exact sorted_newestFirst_insertionSort _
      (fun t ht => h t (mem_of_mem_jsValues_buildMerged ht))
  · intro p hp
    rw [useProjectTasks_tasksByStatus] at hp
    have hp2 : p ∈ (deriveTasks (some l)).tasksByStatus := hp
    rw [deriveTasks_byStatus] at hp2
    rcases List.mem_map.mp hp2 with ⟨s, _, rfl⟩
    exact sorted_newestFirst_insertionSort _
      (fun t ht => h t (List.mem_filter.mp ht).1)

/-- Witness for `derive_sorted_newest_first` on a two-task snapshot with
distinct timestamps. -/
theorem derive_sorted_newest_first_witness :
    (∀ t ∈ [tGood, tAlpha], t.created_at.isSome) ∧
    (List.Sorted newestFirst
        ((useProjectTasks ⟨some [tGood, tAlpha], false, none, true⟩).tasks) ∧
      ∀ p ∈ (useProjectTasks ⟨some [tGood, tAlpha], false, none, true⟩).tasksByStatus,
        List.Sorted newestFirst p.2) :=
  ⟨by decide, derive_sorted_newest_first [tGood, tAlpha] false none true (by decide)⟩

/-- C3: evaluating the hook at the failing input — a successful fetch of an
empty project — gives empty list/map, five empty groups, `isLoading = false`
and `error = none` as the claim says, but the group keys are the literal keys
`todo, inprogress, inreview, done, cancelled`, not the spec's enum values
`todo, in_progress, in_review, done, cancelled`. -/
theorem empty_fetch_viewmodel_keys :
    useProjectTasks ⟨some [], false, none, true⟩
      = { tasks := [], tasksById := [],
          tasksByStatus := [("todo", []), ("inprogress", []), ("inreview", []),
            ("done", []), ("cancelled", [])],
          isLoading := false, isConnected := true, error := none } ∧
    (useProjectTasks ⟨some [], false, none, true⟩).tasksByStatus.map Prod.fst
      ≠ specTaskStatusValues := by
  refine ⟨by decide, by decide⟩

/-- C4 counterexample: with the push channel closed and no fetch error, the
hook still reports `isConnected = true`, so `isConnected` does not reflect
whether the push channel is open. -/
theorem isConnected_not_channel_state :
    (useProjectTasks ⟨some [], false, none, false⟩).isConnected = true ∧
    (⟨some [], false, none, false⟩ : HookState).wsOpen = false := by
  refine ⟨by decide, rfl⟩

/-- C4 (amended): `isConnected` is the negation of the fetch error — true
exactly when the exposed `error` is null — and is independent of the push
channel's open state. -/
theorem isConnected_iff_no_error (st : HookState) (b : Bool) :
    ((useProjectTasks st).isConnected = true ↔ (useProjectTasks st).error = none) ∧
    (useProjectTasks { st with wsOpen := b }).isConnected
      = (useProjectTasks st).isConnected := by
  constructor
  · show st.error.isNone = true ↔ st.error = none
    exact Option.isNone_iff_eq_none
  · rfl

/-- C5: on a snapshot with pairwise distinct identities (the spec's Snapshot
is a mapping, so identities are unique), every task of the flat list lies in a
group exactly when that group is the bucket of its status, the bucket keys are
exactly the five literal keys, and the group lengths sum to the number of
tasks in the flat list whose status is recognized. -/
theorem status_completeness (l : List Task) (isL : Bool) (err : Option String)
    (w : Bool) (hids : (l.map Task.id).Nodup) :
    (∀ t ∈ (useProjectTasks ⟨some l, isL, err, w⟩).tasks,
      ∀ p ∈ (useProjectTasks ⟨some l, isL, err, w⟩).tasksByStatus,
        (t ∈ p.2 ↔ p.1 = t.status)) ∧
    (useProjectTasks ⟨some l, isL, err, w⟩).tasksByStatus.map Prod.fst = statusKeys ∧
    ((useProjectTasks ⟨some l, isL, err, w⟩).tasksByStatus.map
        (fun p => p.2.length)).sum
      = ((useProjectTasks ⟨some l, isL, err, w⟩).tasks.filter
          (fun t => t.status ∈ statusKeys)).length := by
  have hby : (useProjectTasks ⟨some l, isL, err, w⟩).tasksByStatus
      = statusKeys.map (fun s => (s, List.insertionSort taskBefore
          (l.filter (fun t => t.status = s)))) := by
    rw [useProjectTasks_tasksByStatus]
    exact deriveTasks_byStatus l
  have hperm : ((useProjectTasks ⟨some l, isL, err, w⟩).tasks).Perm l := by
    rw [useProjectTasks_tasks]
    exact deriveTasks_tasks_perm l hids
  refine ⟨?_, ?_, ?_⟩
  · intro t ht p hp
    rw [hby] at hp
    rcases List.mem_map.mp hp with ⟨s, _, rfl⟩
    have htl : t ∈ l := hperm.mem_iff.mp ht
    constructor
    · intro htp
      have hmem := (List.mem_filter.mp
        ((List.mem_insertionSort taskBefore).mp htp)).2
      exact (of_decide_eq_true hmem).symm
    · intro hst
      show t ∈ List.insertionSort taskBefore _
      rw [List.mem_insertionSort]
      exact List.mem_filter.mpr ⟨htl, decide_eq_true hst.symm⟩
  · rw [hby, List.map_map]
    have hcomp : (Prod.fst ∘ fun s => (s, List.insertionSort taskBefore
        (l.filter (fun t => t.status = s)))) = id := rfl
    rw [hcomp, List.map_id]
  · rw [hby, List.map_map]
    have hlen : ∀ s ∈ statusKeys,
        ((fun p : String × List Task => p.2.length) ∘ fun s =>
          (s, List.insertionSort taskBefore (l.filter (fun t => t.status = s)))) s
          = (l.filter (fun t => t.status = s)).length := by
      intro s _
      show (List.insertionSort taskBefore (l.filter (fun t => t.status = s))).length = _
      exact List.length_insertionSort _ _
    rw [List.map_congr_left hlen, filter_length_sum,
      ← List.countP_eq_length_filter, ← List.countP_eq_length_filter]
    exact (hperm.countP_eq _).symm

/-- Witness for `status_completeness` on a two-task snapshot. -/
theorem status_completeness_witness :
    (([tGood, tWeird].map Task.id).Nodup) ∧
    ((∀ t ∈ (useProjectTasks ⟨some [tGood, tWeird], false, none, true⟩).tasks,
      ∀ p ∈ (useProjectTasks ⟨some [tGood, tWeird], false, none, true⟩).tasksByStatus,
        (t ∈ p.2 ↔ p.1 = t.status)) ∧
    (useProjectTasks ⟨some [tGood, tWeird], false, none, true⟩).tasksByStatus.map
        Prod.fst = statusKeys ∧
    ((useProjectTasks ⟨some [tGood, tWeird], false, none, true⟩).tasksByStatus.map
        (fun p => p.2.length)).sum
      = ((useProjectTasks ⟨some [tGood, tWeird], false, none, true⟩).tasks.filter
          (fun t => t.status ∈ statusKeys)).length) :=
  ⟨by decide, status_completeness [tGood, tWeird] false none true (by decide)⟩

/-- C6 counterexample: `tBad` has no creation timestamp, yet derivation keeps
it in the flat list — the malformed record is not excluded from the
ViewModel (the well-formed `tGood` is present as well). -/
theorem malformed_task_retained :
    tBad.created_at = none ∧
    tBad ∈ (useProjectTasks ⟨some [tGood, tBad], false, none, true⟩).tasks ∧
    tGood ∈ (useProjectTasks ⟨some [tGood, tBad], false, none, true⟩).tasks := by
  refine ⟨rfl, by decide, by decide⟩

/-- C6 (amended): derivation is total — it cannot abort — and on an
identity-distinct snapshot every fetched task appears in the flat list,
malformed ones included (a missing timestamp makes the record compare equal to
everything in the sort rather than excluding it). -/
theorem derive_total_retains_all (l : List Task) (isL : Bool)
    (err : Option String) (w : Bool) (t : Task)
    (hids : (l.map Task.id).Nodup) (ht : t ∈ l) :
    t ∈ (useProjectTasks ⟨some l, isL, err, w⟩).tasks := by
  rw [useProjectTasks_tasks]
  exact (deriveTasks_tasks_perm l hids).mem_iff.mpr ht

/-- Witness for `derive_total_retains_all`: the timestamp-less `tBad` is in
the derived list. -/
theorem derive_total_retains_all_witness :
    (([tGood, tBad].map Task.id).Nodup) ∧ tBad ∈ ([tGood, tBad] : List Task) ∧
    tBad ∈ (useProjectTasks ⟨some [tGood, tBad], false, none, true⟩).tasks :=
  ⟨by decide, by decide,
    derive_total_retains_all [tGood, tBad] false none true tBad (by decide) (by decide)⟩

/-- C7: a failed fetch after a prior success sets the error while keeping the
previous snapshot; the error persists through any run of further failures and
is cleared by the next success; the exposed tasks still derive from the prior
successful snapshot. -/
theorem error_preserves_snapshot (st : QueryState) (d : List Task) (e : String)
    (l : List FetchOutcome) (hl : ∀ o ∈ l, o.isFailure = true) :
    (applyOutcome (applyOutcome st (.success d)) (.failure e)).error = some e ∧
    (applyOutcome (applyOutcome st (.success d)) (.failure e)).data = some d ∧
    (runFetches (applyOutcome (applyOutcome st (.success d)) (.failure e)) l).data
      = some d ∧
    ((runFetches (applyOutcome (applyOutcome st (.success d)) (.failure e)) l).error).isSome
      = true ∧
    (∀ d2 : List Task,
      (applyOutcome
        (runFetches (applyOutcome (applyOutcome st (.success d)) (.failure e)) l)
        (.success d2)).error = none) ∧
    (∀ isL w,
      (useProjectTasks
        ⟨(runFetches (applyOutcome (applyOutcome st (.success d)) (.failure e)) l).data,
          isL,
          (runFetches (applyOutcome (applyOutcome st (.success d)) (.failure e)) l).error,
          w⟩).tasks
        = (useProjectTasks ⟨some d, isL, none, w⟩).tasks) := by
  have hrun := runFetches_failures
    (applyOutcome (applyOutcome st (.success d)) (.failure e)) l hl rfl
  refine ⟨rfl, rfl, ?_, hrun.2, fun d2 => rfl, ?_⟩
  · rw [hrun.1]; rfl
  · intro isL w
    rw [useProjectTasks_tasks, useProjectTasks_tasks]
    show (deriveTasks (runFetches _ l).data).tasks = (deriveTasks (some d)).tasks
    rw [hrun.1]; rfl

/-- Witness for `error_preserves_snapshot` with a concrete failure trace. -/
theorem error_preserves_snapshot_witness :
    (∀ o ∈ [FetchOutcome.failure "timeout"], o.isFailure = true) ∧
    ((applyOutcome (applyOutcome ⟨none, none⟩ (.success [tGood])) (.failure "NetworkError")).error
        = some "NetworkError" ∧
    (applyOutcome (applyOutcome ⟨none, none⟩ (.success [tGood])) (.failure "NetworkError")).data
        = some [tGood] ∧
    (runFetches (applyOutcome (applyOutcome ⟨none, none⟩ (.success [tGood])) (.failure "NetworkError"))
        [FetchOutcome.failure "timeout"]).data = some [tGood] ∧
    ((runFetches (applyOutcome (applyOutcome ⟨none, none⟩ (.success [tGood])) (.failure "NetworkError"))
        [FetchOutcome.failure "timeout"]).error).isSome = true ∧
    (∀ d2 : List Task,
      (applyOutcome
        (runFetches (applyOutcome (applyOutcome ⟨none, none⟩ (.success [tGood])) (.failure "NetworkError"))
          [FetchOutcome.failure "timeout"])
        (.success d2)).error = none) ∧
    (∀ isL w,
      (useProjectTasks
        ⟨(runFetches (applyOutcome (applyOutcome ⟨none, none⟩ (.success [tGood])) (.failure "NetworkError"))
            [FetchOutcome.failure "timeout"]).data,
          isL,
          (runFetches (applyOutcome (applyOutcome ⟨none, none⟩ (.success [tGood])) (.failure "NetworkError"))
            [FetchOutcome.failure "timeout"]).error,
          w⟩).tasks
        = (useProjectTasks ⟨some [tGood], isL, none, w⟩).tasks)) :=
  ⟨by decide,
    error_preserves_snapshot ⟨none, none⟩ [tGood] "NetworkError"
      [FetchOutcome.failure "timeout"] (by decide)⟩

/-- C8: on an identity-distinct snapshot a task with an unrecognized status
appears in no status group but is retained in the flat ordered list. -/
theorem unrecognized_status_retained (l : List Task) (isL : Bool)
    (err : Option String) (w : Bool) (hids : (l.map Task.id).Nodup)
    (t : Task) (ht : t ∈ l) (hs : t.status ∉ statusKeys) :
    (∀ p ∈ (useProjectTasks ⟨some l, isL, err, w⟩).tasksByStatus, t ∉ p.2) ∧
    t ∈ (useProjectTasks ⟨some l, isL, err, w⟩).tasks := by
  constructor
  · intro p hp
    rw [useProjectTasks_tasksByStatus] at hp
    have hp2 : p ∈ (deriveTasks (some l)).tasksByStatus := hp
    rw [deriveTasks_byStatus] at hp2
    rcases List.mem_map.mp hp2 with ⟨s, hsmem, rfl⟩
    intro htp
    have hmem := (List.mem_filter.mp
      ((List.mem_insertionSort taskBefore).mp htp)).2
    refine hs ?_
    rw [of_decide_eq_true hmem]
    exact hsmem
  · rw [useProjectTasks_tasks]
    exact (deriveTasks_tasks_perm l hids).mem_iff.mpr ht

/-- Witness for `unrecognized_status_retained`: `tWeird` has status
"blocked". -/
theorem unrecognized_status_retained_witness :
    (([tGood, tWeird].map Task.id).Nodup) ∧
    tWeird ∈ ([tGood, tWeird] : List Task) ∧
    tWeird.status ∉ statusKeys ∧
    ((∀ p ∈ (useProjectTasks ⟨some [tGood, tWeird], false, none, true⟩).tasksByStatus,
        tWeird ∉ p.2) ∧
      tWeird ∈ (useProjectTasks ⟨some [tGood, tWeird], false, none, true⟩).tasks) :=
  ⟨by decide, by decide, by decide,
    unrecognized_status_retained [tGood, tWeird] false none true (by decide)
      tWeird (by decide) (by decide)⟩

/-- C9: a change notification that passes the socket filter but carries a
foreign project id triggers zero refresh calls. -/
theorem foreign_project_no_refresh (msg : WsMessage) (pid : String)
    (nd : NotifData) (hfilter : wsFilter msg = true) (hd : msg.data = some nd)
    (hne : nd.project_id ≠ pid) :
    refreshCount (some msg) pid = 0 := by
  have htype : msg.type.isSome = true := by
    unfold wsFilter at hfilter
    cases hmt : msg.type with
    | none => rw [hmt] at hfilter; exact absurd hfilter (by simp)
    | some s => simp [hmt]
  simp [refreshCount, htype, hd, hne]

/-- Witness for `foreign_project_no_refresh`: a `task_updated` message for
project "p2" while project "p1" is active. -/
theorem foreign_project_no_refresh_witness :
    wsFilter ⟨some "task_updated", some ⟨"p2"⟩⟩ = true ∧
    WsMessage.data ⟨some "task_updated", some ⟨"p2"⟩⟩ = some ⟨"p2"⟩ ∧
    NotifData.project_id ⟨"p2"⟩ ≠ "p1" ∧
    refreshCount (some ⟨some "task_updated", some ⟨"p2"⟩⟩) "p1" = 0 :=
  ⟨by decide, rfl, by decide,
    foreign_project_no_refresh ⟨some "task_updated", some ⟨"p2"⟩⟩ "p1" ⟨"p2"⟩
      (by decide) rfl (by decide)⟩

/-- C10: for a fetched list with a duplicated identity, the flat list has
exactly one task per present identity — the last fetched occurrence, the one
`tasksById` maps the identity to — while each bucket's length counts every
occurrence of its status, so a duplicated identity can appear more than once
in a group. -/
theorem duplicate_ids_last_wins (l : List Task) (isL : Bool)
    (err : Option String) (w : Bool) (i : String) (hi : i ∈ l.map Task.id) :
    ((useProjectTasks ⟨some l, isL, err, w⟩).tasks.countP (fun t => t.id = i) = 1) ∧
    (∀ t ∈ (useProjectTasks ⟨some l, isL, err, w⟩).tasks, t.id = i →
      (l.filter (fun u => u.id = i)).getLast? = some t) ∧
    (recLookup (useProjectTasks ⟨some l, isL, err, w⟩).tasksById i
      = (l.filter (fun u => u.id = i)).getLast?) ∧
    (∀ p ∈ (useProjectTasks ⟨some l, isL, err, w⟩).tasksByStatus,
      p.2.length = l.countP (fun t => t.status = p.1)) := by
  have hnd : ((buildMerged l).map Prod.fst).Nodup := by
    unfold buildMerged
    exact keys_nodup_foldl_mergeInsert l [] (by simp)
  have hinv : ∀ e ∈ buildMerged l, Task.id e.2 = e.1 := by
    unfold buildMerged
    exact id_eq_key_foldl_mergeInsert l [] (by simp)
  have hkeys : i ∈ (buildMerged l).map Prod.fst := by
    unfold buildMerged
    exact (mem_keys_foldl_mergeInsert l [] i).mpr (Or.inr hi)
  have hlookup : recLookup (useProjectTasks ⟨some l, isL, err, w⟩).tasksById i
      = (l.filter (fun u => u.id = i)).getLast? := by
    rw [useProjectTasks_tasksById]
    show recLookup (deriveTasks (some l)).tasksById i = _
    rw [deriveTasks_tasksById_eq]
    unfold buildMerged
    rw [recLookup_foldl_mergeInsert]
    show ((l.filter (fun u => u.id = i)).getLast?).or none = _
    rw [Option.or_none]
  have hpermv : ((useProjectTasks ⟨some l, isL, err, w⟩).tasks).Perm
      ((buildMerged l).map Prod.snd) := by
    rw [useProjectTasks_tasks]
    show ((deriveTasks (some l)).tasks).Perm _
    rw [deriveTasks_tasks_eq]
    exact (List.perm_insertionSort _ _).trans (jsValues_perm _)
  refine ⟨?_, ?_, hlookup, ?_⟩
  · rw [hpermv.countP_eq, List.countP_map]
    have hcongr : ((buildMerged l).countP
        ((fun t : Task => decide (t.id = i)) ∘ Prod.snd))
        = (buildMerged l).countP (fun e => decide (e.1 = i)) := by
      refine List.countP_congr ?_
      intro e he
      simp only [Function.comp_apply, decide_eq_true_eq]
      rw [hinv e he]
    rw [hcongr]
    have hmapfst : (buildMerged l).countP (fun e => decide (e.1 = i))
        = ((buildMerged l).map Prod.fst).countP (fun k => decide (k = i)) := by
      rw [List.countP_map]
      rfl
    rw [hmapfst]
    exact countP_eq_one_of_nodup hnd hkeys
  · intro t ht hti
    rcases List.mem_map.mp (hpermv.mem_iff.mp ht) with ⟨e, he, hsnd⟩
    have hkey : e.1 = i := by rw [← hinv e he, hsnd, hti]
    have hlk : recLookup (buildMerged l) e.1 = some e.2 :=
      recLookup_of_mem_nodup hnd he
    rw [← hlookup, useProjectTasks_tasksById]
    show recLookup (deriveTasks (some l)).tasksById i = some t
    rw [deriveTasks_tasksById_eq, ← hkey, hlk, hsnd]
  · intro p hp
    rw [useProjectTasks_tasksByStatus] at hp
    have hp2 : p ∈ (deriveTasks (some l)).tasksByStatus := hp
    rw [deriveTasks_byStatus] at hp2
    rcases List.mem_map.mp hp2 with ⟨s, _, rfl⟩
    show (List.insertionSort taskBefore (l.filter (fun t => t.status = s))).length = _
    rw [List.length_insertionSort, ← List.countP_eq_length_filter]

/-- Witness for `duplicate_ids_last_wins`: two fetched tasks share id "x" and
status "todo"; the flat list keeps one, `tasksById` maps "x" to the later
`tDup2`, and the "todo" bucket has length 2. -/
theorem duplicate_ids_last_wins_witness :
    ("x" ∈ [tDup1, tDup2].map Task.id) ∧
    (((useProjectTasks ⟨some [tDup1, tDup2], false, none, true⟩).tasks.countP
        (fun t => t.id = "x") = 1) ∧
    (∀ t ∈ (useProjectTasks ⟨some [tDup1, tDup2], false, none, true⟩).tasks,
      t.id = "x" →
      ([tDup1, tDup2].filter (fun u => u.id = "x")).getLast? = some t) ∧
    (recLookup (useProjectTasks ⟨some [tDup1, tDup2], false, none, true⟩).tasksById "x"
      = ([tDup1, tDup2].filter (fun u => u.id = "x")).getLast?) ∧
    (∀ p ∈ (useProjectTasks ⟨some [tDup1, tDup2], false, none, true⟩).tasksByStatus,
      p.2.length = [tDup1, tDup2].countP (fun t => t.status = p.1))) :=
  ⟨by decide, duplicate_ids_last_wins [tDup1, tDup2] false none true "x" (by decide)⟩

end Kanban
